import Mathlib

/-!
Verification development for the C binding generator (`src/lang_c.rs` of
`safe_bindgen`).

The Rust source is shallowly embedded: every definition below mirrors one
function or type of `lang_c.rs`, keeping the source name where possible.
Rust `Result<T, Error>` becomes `Except CErr T`.  Rust code that can panic
(indexing an empty slice in `header_name`, the `unwrap!` on the topological
sort in `finalise_output`, the `HashMap` index on a producer header that is
not a node) is modelled with an outer `Option`, where `none` marks the
panic: a panic produces no value of any kind, in particular no typed error.

The collaborators from the missing `common` module (`Outputs`,
`append_output`, attribute parsing and docstring extraction) are modelled
from the spec, as noted on each definition.
-/

namespace SafeBindgen

/-- Error severity; mirrors `Level` used by `lang_c.rs` (`Error`, `Bug`). -/
inductive Level where
  | error
  | bug
deriving DecidableEq

/-- Structured error; mirrors the crate `Error` struct.  The source also
carries an optional source span, which is irrelevant to every claim and is
omitted from the model. -/
structure CErr where
  level : Level
  message : String
deriving DecidableEq

/-- Mirrors `CPtrType` of the source: the constness tag of a pointer level. -/
inductive CPtrType where
  | const
  | mutable
deriving DecidableEq

/-- Mirrors the `CType` enum of the source.  `CTypeNamed(String, CType)` is
modelled as the pair `String × CType`, so `FnDecl`'s argument list becomes
`List (String × CType)`. -/
inductive CType where
  | void
  | mapping (s : String)
  | native (s : String)
  | ptr (inner : CType) (constness : CPtrType)
  | fnDecl (inner : String) (args : List (String × CType)) (return_type : CType)

/-- Mirrors `ast::Mutability` (`Immutable` for `*const`, `Mutable` for `*mut`). -/
inductive Mutbl where
  | immutable
  | mutable
deriving DecidableEq

mutual
/-- Shallow embedding of the fragment of `syntax::ast::Ty` consumed by
`lang_c.rs`: bare function types, fixed-size arrays (whose length the source
ignores), raw pointers, path types (as their segment names), the never type,
and a catch-all `other` carrying the pretty-printed form that
`pprust::ty_to_string` would produce for it (`"()"` for the unit type). -/
inductive RTy where
  | never
  | array (elem : RTy)
  | ptr (pointee : RTy) (mutbl : Mutbl)
  | path (segments : List String)
  | bareFn (has_lifetimes : Bool) (inputs : List (String × RTy)) (output : FunctionRetTy)
  | other (rendered : String)

/-- Mirrors `ast::FunctionRetTy`: a defaulted return (`-> ()` omitted) or an
explicit return type. -/
inductive FunctionRetTy where
  | default
  | ty (t : RTy)
end

/-- Mirrors `libc_ty_to_c`: the fixed `libc` conversion table with an opaque
`Mapping` passthrough for every other name. -/
def libc_ty_to_c (ty : String) : CType :=
  match ty with
  | "c_void" => CType.void
  | "c_float" => CType.native "float"
  | "c_double" => CType.native "double"
  | "c_char" => CType.native "char"
  | "c_schar" => CType.native "signed char"
  | "c_uchar" => CType.native "unsigned char"
  | "c_short" => CType.native "short"
  | "c_ushort" => CType.native "unsigned short"
  | "c_int" => CType.native "int"
  | "c_uint" => CType.native "unsigned int"
  | "c_long" => CType.native "long"
  | "c_ulong" => CType.native "unsigned long"
  | "c_longlong" => CType.native "long long"
  | "c_ulonglong" => CType.native "unsigned long long"
  | _ => CType.mapping ty

/-- Mirrors `osraw_ty_to_c`: the fixed `std::os::raw` conversion table with
an opaque `Mapping` passthrough for every other name. -/
def osraw_ty_to_c (ty : String) : CType :=
  match ty with
  | "c_void" => CType.void
  | "c_char" => CType.native "char"
  | "c_double" => CType.native "double"
  | "c_float" => CType.native "float"
  | "c_int" => CType.native "int"
  | "c_long" => CType.native "long"
  | "c_longlong" => CType.native "long long"
  | "c_schar" => CType.native "signed char"
  | "c_short" => CType.native "short"
  | "c_uchar" => CType.native "unsigned char"
  | "c_uint" => CType.native "unsigned int"
  | "c_ulong" => CType.native "unsigned long"
  | "c_ulonglong" => CType.native "unsigned long long"
  | "c_ushort" => CType.native "unsigned short"
  | _ => CType.mapping ty

/-- Mirrors `rust_ty_to_c`: the fixed table for unqualified Rust primitive
names; note that the final arm of the source delegates to `libc_ty_to_c`,
not directly to a `Mapping` passthrough. -/
def rust_ty_to_c (ty : String) : CType :=
  match ty with
  | "()" => CType.void
  | "f32" => CType.native "float"
  | "f64" => CType.native "double"
  | "i8" => CType.native "int8_t"
  | "i16" => CType.native "int16_t"
  | "i32" => CType.native "int32_t"
  | "i64" => CType.native "int64_t"
  | "isize" => CType.native "intptr_t"
  | "u8" => CType.native "uint8_t"
  | "u16" => CType.native "uint16_t"
  | "u32" => CType.native "uint32_t"
  | "u64" => CType.native "uint64_t"
  | "usize" => CType.native "uintptr_t"
  | "bool" => CType.native "bool"
  | _ => libc_ty_to_c ty

/-- Mirrors `path_to_c`: empty paths are a bug-level error; single-segment
paths go through `rust_ty_to_c`; multi-segment paths are recognised only for
the `libc` and `std::os::raw` modules. -/
def path_to_c (segments : List String) : Except CErr CType :=
  match segments with
  | [] => Except.error ⟨Level.bug, "invalid type"⟩
  | [seg] => Except.ok (rust_ty_to_c seg)
  | segs =>
    let module := String.intercalate "::" segs.dropLast
    let ty := segs.getLastD ""
    match module with
    | "libc" => Except.ok (libc_ty_to_c ty)
    | "std::os::raw" => Except.ok (osraw_ty_to_c ty)
    | _ =>
      Except.error
        ⟨Level.error,
          "bindgen can not handle types in other modules (except `libc` and `std::os::raw`)"⟩

/-- Character filter of `sanitise_id`: Rust `ch.is_digit(36)` accepts
exactly the ASCII alphanumeric characters. -/
def is_digit36 (c : Char) : Bool :=
  (decide ('0' ≤ c) && decide (c ≤ '9')) ||
    (decide ('a' ≤ c) && decide (c ≤ 'z')) ||
    (decide ('A' ≤ c) && decide (c ≤ 'Z'))

/-- Mirrors `sanitise_id`: keep only ASCII alphanumerics and underscores. -/
def sanitise_id (id : String) : String :=
  String.mk (id.data.filter (fun ch => is_digit36 ch || ch == '_'))

/-- Mirrors `wrap_extern`: wrap a block of code with the conditional
`extern "C"` linkage block.  The leading and trailing newlines come from the
raw string literal in the source. -/
def wrap_extern (code : String) : String :=
  "\n#ifdef __cplusplus\nextern \"C\" \x7b\n#endif\n\n" ++ code ++
    "\n\n#ifdef __cplusplus\n\x7d\n#endif\n"

/-- Mirrors `wrap_guard`: wrap a block of code with an include guard keyed
by the sanitised id.  Note the single space before the wrapped code in the
source format string. -/
def wrap_guard (code : String) (id : String) : String :=
  "\n#ifndef bindgen_" ++ sanitise_id id ++ "\n#define bindgen_" ++ sanitise_id id ++
    "\n\n " ++ code ++ "\n\n#endif\n"

/-- Mirrors `header_name`.  The source unconditionally indexes
`module_name[0]`, which panics on an empty module path; the panic is
modelled as `none`.  `path::MAIN_SEPARATOR` is `/` on the target platform. -/
def header_name (module : List String) (lib_name : String) : Option String :=
  match module with
  | [] => none
  | m0 :: rest =>
    let module_name :=
      if m0 = "ffi" then
        if rest.isEmpty then [lib_name, lib_name] else lib_name :: rest
      else m0 :: rest
    some (String.intercalate "/" module_name ++ ".h")

mutual
/-- Mirrors `CType::dependencies`: the `Mapping` names referenced by a C
type, with a function pointer contributing its return type dependencies
followed by those of its arguments. -/
def CType.dependencies : CType → List String
  | CType.fnDecl _ args return_type => return_type.dependencies ++ ctype_args_deps args
  | CType.ptr inner _ => inner.dependencies
  | CType.mapping m => [m]
  | _ => []

/-- Flattened dependencies of a `FnDecl` argument list (the `flat_map` of the
source). -/
def ctype_args_deps : List (String × CType) → List String
  | [] => []
  | (_, t) :: rest => t.dependencies ++ ctype_args_deps rest
end

/-- Rendering of `CPtrType` (the `Display` impl): `Const` renders a
leading-space `const`, `Mutable` renders nothing. -/
def cptr_to_string : CPtrType → String
  | CPtrType.const => " const"
  | CPtrType.mutable => ""

/-- True exactly for the `FnDecl` variant; used by the `CTypeNamed`
rendering, which special-cases function declarations. -/
def CType.isFnDecl : CType → Bool
  | CType.fnDecl _ _ _ => true
  | _ => false

mutual
/-- Rendering of `CType` (the `Display` impl): pointers render the pointee,
then the constness, then `*`; function declarations render
`ret (*inner)(args)` with `void` for an empty argument list. -/
def ctype_to_string : CType → String
  | CType.void => "void"
  | CType.mapping s => s
  | CType.native s => s
  | CType.ptr inner constness => ctype_to_string inner ++ cptr_to_string constness ++ "*"
  | CType.fnDecl inner args return_type =>
    ctype_to_string return_type ++ " (*" ++ inner ++ ")(" ++
      (match args with
       | [] => "void"
       | a :: rest => String.intercalate ", " (ctype_args_strings (a :: rest))) ++ ")"

/-- Renders each named argument the way `CTypeNamed`'s `Display` impl does:
a function declaration stands alone, anything else is `type name`. -/
def ctype_args_strings : List (String × CType) → List String
  | [] => []
  | (n, t) :: rest =>
    (if t.isFnDecl then ctype_to_string t else ctype_to_string t ++ " " ++ n) ::
      ctype_args_strings rest
end

/-- Rendering of `CTypeNamed` (the `Display` impl): function declarations
carry their own name, every other type is prefixed to the name. -/
def ctype_named_to_string (c : String × CType) : String :=
  if c.2.isFnDecl then ctype_to_string c.2 else ctype_to_string c.2 ++ " " ++ c.1

mutual
/-- Mirrors `rust_to_c`: a bare function type is handed to `fn_ptr_to_c`
with an empty (`Default::default()`) name; every other type keeps the
associated name next to its anonymous translation. -/
def rust_to_c (t : RTy) (assoc : String) : Except CErr (String × CType) :=
  match t with
  | RTy.bareFn has_lifetimes inputs output =>
    match fn_ptr_to_c has_lifetimes inputs output assoc with
    | Except.error e => Except.error e
    | Except.ok c => Except.ok ("", c)
  | t' =>
    match anon_rust_to_c t' with
    | Except.error e => Except.error e
    | Except.ok c => Except.ok (assoc, c)
termination_by (sizeOf t, 1)

/-- Mirrors `anon_rust_to_c`.  The final two arms are the catch-all of the
source, which pretty-prints the type and accepts only the rendering `"()"`
(`RTy.never` pretty-prints as `!`). -/
def anon_rust_to_c (t : RTy) : Except CErr CType :=
  match t with
  | RTy.bareFn _ _ _ =>
    Except.error
      ⟨Level.error,
        "C function pointers must have a name or function declaration associated with them"⟩
  | RTy.array elem =>
    match anon_rust_to_c elem with
    | Except.error e => Except.error e
    | Except.ok c => Except.ok (CType.ptr c CPtrType.const)
  | RTy.ptr pointee mutbl => ptr_to_c pointee mutbl
  | RTy.path segments => path_to_c segments
  | RTy.never => Except.error ⟨Level.error, "bindgen can not handle the type `!`"⟩
  | RTy.other rendered =>
    if rendered = "()" then Except.ok CType.void
    else Except.error ⟨Level.error, "bindgen can not handle the type `" ++ rendered ++ "`"⟩
termination_by (sizeOf t, 0)

/-- Mirrors `ptr_to_c`: translate the pointee and derive the constness from
the declared mutability (`*const` gives `Const`, `*mut` gives `Mutable`). -/
def ptr_to_c (pointee : RTy) (mutbl : Mutbl) : Except CErr CType :=
  (anon_rust_to_c pointee).map (fun new_type =>
    CType.ptr new_type
      (match mutbl with
       | Mutbl.immutable => CPtrType.const
       | Mutbl.mutable => CPtrType.mutable))
termination_by (sizeOf pointee, 1)

/-- Mirrors `fn_ptr_to_c`: lifetimes are rejected, arguments are translated
in order with their names, a diverging (never) return type is rejected, a
defaulted return becomes `void`. -/
def fn_ptr_to_c (has_lifetimes : Bool) (inputs : List (String × RTy))
    (output : FunctionRetTy) (inner : String) : Except CErr CType :=
  if has_lifetimes then Except.error ⟨Level.error, "bindgen can not handle lifetimes"⟩
  else
    match fn_args_to_c inputs with
    | Except.error e => Except.error e
    | Except.ok args =>
      match output with
      | FunctionRetTy.ty RTy.never =>
        Except.error ⟨Level.error, "panics across a C boundary are naughty!"⟩
      | FunctionRetTy.default => Except.ok (CType.fnDecl inner args CType.void)
      | FunctionRetTy.ty ty =>
        match anon_rust_to_c ty with
        | Except.error e => Except.error e
        | Except.ok return_type => Except.ok (CType.fnDecl inner args return_type)
termination_by (sizeOf inputs + sizeOf output, 1)
decreasing_by
  all_goals first
    | decreasing_tactic
    | (cases output <;> (apply Prod.Lex.left; simp_arith))

/-- Argument loop of `fn_ptr_to_c`: each argument is translated by
`rust_to_c` under its own pattern name; the first failure aborts. -/
def fn_args_to_c : List (String × RTy) → Except CErr (List (String × CType))
  | [] => Except.ok []
  | (arg_name, arg_ty) :: rest =>
    match rust_to_c arg_ty arg_name with
    | Except.error e => Except.error e
    | Except.ok c =>
      match fn_args_to_c rest with
      | Except.error e => Except.error e
      | Except.ok cs => Except.ok (c :: cs)
termination_by inputs => (sizeOf inputs, 0)
end

/-! Association-list maps.  `decls` and `deps` are `BTreeMap`s in the
source and `Outputs` is the map type of the missing `common` module; all
are modelled as association lists with single-key semantics: `lookupA`
finds the first binding, `insertA` overwrites the binding in place or
appends a new one (the semantics of `BTreeMap::insert`). -/

/-- First-match lookup in an association list. -/
def lookupA : List (String × String) → String → Option String
  | [], _ => none
  | (k, v) :: rest, key => if k = key then some v else lookupA rest key

/-- Insert-or-overwrite in an association list (`BTreeMap::insert`). -/
def insertA : List (String × String) → String → String → List (String × String)
  | [], key, value => [(key, value)]
  | (k, v) :: rest, key, value =>
    if k = key then (key, value) :: rest else (k, v) :: insertA rest key value

/-- First-match lookup in the dependency map. -/
def lookupDeps : List (String × List String) → String → Option (List String)
  | [], _ => none
  | (k, v) :: rest, key => if k = key then some v else lookupDeps rest key

/-- The `entry` update of `add_dependencies`: extend the dependency list of
an existing header entry, or insert a fresh entry (`BTreeMap::entry` with
`Occupied`/`Vacant`). -/
def depsAdd : List (String × List String) → String → List String → List (String × List String)
  | [], header, ds => [(header, ds)]
  | (k, v) :: rest, header, ds =>
    if k = header then (k, v ++ ds) :: rest else (k, v) :: depsAdd rest header ds

/-- Modelled from the spec: `Outputs` (missing `common` module) is the
append-only mapping from header identifier to accumulated text. -/
abbrev Outputs := List (String × String)

/-- Modelled from the spec: `append_output` (missing `common` module)
appends a buffer to the text accumulated for a header, creating the entry
when absent. -/
def append_output (buffer : String) (header : String) (outputs : Outputs) : Outputs :=
  match outputs with
  | [] => [(header, buffer)]
  | (k, v) :: rest =>
    if k = header then (k, v ++ buffer) :: rest
    else (k, v) :: append_output buffer header rest

/-- Mirrors the `LangC` struct: configured library name, the `TypeRegistry`
(`decls`: exported name to header), and the pending dependency facts
(`deps`: consuming header to referenced names). -/
structure LangC where
  lib_name : String
  decls : List (String × String)
  deps : List (String × List String)

/-- Mirrors `LangC::add_dependencies`: record the `Mapping` names referenced
by a translated type against the consuming header; `none` models the
`header_name` panic on an empty module path. -/
def add_dependencies (st : LangC) (module : List String) (cty : CType) : Option LangC :=
  let ds := cty.dependencies
  if ds.isEmpty then some st
  else
    match header_name module st.lib_name with
    | none => none
    | some header => some (LangC.mk st.lib_name st.decls (depsAdd st.deps header ds))

/-- Mirrors `LangC::append_to_header`: append a buffer to the declaration's
header in `Outputs`. -/
def append_to_header (st : LangC) (buffer : String) (module : List String)
    (outputs : Outputs) : Option Outputs :=
  match header_name module st.lib_name with
  | none => none
  | some header => some (append_output buffer header outputs)

/-- Struct payloads: `ast::VariantData` as used by `parse_struct`.  A named
field carries its (already rendered, `retrieve_docstring`-style) doc text,
its name — `VariantData::Struct` fields always have one — and its type; for
tuple structs only the field count is consulted by the source. -/
inductive VariantData where
  | structFields (fields : List (String × String × RTy))
  | tuple (num_fields : Nat)
  | unitStruct

/-- The declaration payloads routed to `parse_ty` and `parse_struct`
(`ast::ItemKind`); `otherKind` stands for every other kind, which those
functions reject as a bug. -/
inductive ItemKind where
  | tyAlias (ty : RTy) (generics : Bool)
  | structKind (variants : VariantData) (generics : Bool)
  | otherKind

/-- A declaration item.  Modelled from the spec for the missing `common`
attribute helpers: `repr_c` is the result of `parse_attr` with
`check_repr_c`, and `docs` is the pre-rendered documentation text. -/
structure Item where
  repr_c : Bool
  docs : String
  name : String
  node : ItemKind

/-- Mirrors `parse_ty` (`Lang for LangC`): convert `pub type A = B;` into a
typedef, skip generic aliases silently, record the exported name in
`decls`. -/
def parse_ty (st : LangC) (item : Item) (module : List String) (outputs : Outputs) :
    Option (Except CErr Unit × LangC × Outputs) :=
  let buffer := item.docs
  match item.node with
  | ItemKind.tyAlias ty generics =>
    if generics then some (Except.ok (), st, outputs)
    else
      match rust_to_c ty item.name with
      | Except.error e => some (Except.error e, st, outputs)
      | Except.ok new_type =>
        let buffer := buffer ++ "typedef " ++ ctype_named_to_string new_type ++ ";\n\n"
        match append_to_header st buffer module outputs with
        | none => none
        | some outputs2 =>
          match header_name module st.lib_name with
          | none => none
          | some header =>
            some (Except.ok (),
              LangC.mk st.lib_name (insertA st.decls item.name header) st.deps, outputs2)
  | _ => some (Except.error ⟨Level.bug, "`parse_ty` called on wrong `Item_`"⟩, st, outputs)

/-- Field loop of `parse_struct`: append each field's docs, translate its
type, record its dependencies, and render `\t<field>;\n`; the first failure
returns immediately with the state mutated so far. -/
def parse_fields (st : LangC) (module : List String) :
    List (String × String × RTy) → String → Option (Except CErr String × LangC)
  | [], buffer => some (Except.ok buffer, st)
  | (fdocs, fname, fty) :: rest, buffer =>
    let buffer := buffer ++ fdocs
    match rust_to_c fty fname with
    | Except.error e => some (Except.error e, st)
    | Except.ok ty =>
      match add_dependencies st module ty.2 with
      | none => none
      | some st2 =>
        parse_fields st2 module rest (buffer ++ "\t" ++ ctype_named_to_string ty ++ ";\n")

/-- Mirrors `parse_struct` (`Lang for LangC`): non-`repr(C)` structs are
silently skipped; generic structs, unit structs and tuple structs with more
than one member are rejected; a named-field struct renders each field; a
single-field tuple struct renders only the opaque
`typedef struct Name Name;`; on success the exported name is recorded in
`decls`. -/
def parse_struct (st : LangC) (item : Item) (module : List String) (outputs : Outputs) :
    Option (Except CErr Unit × LangC × Outputs) :=
  if !item.repr_c then some (Except.ok (), st, outputs)
  else
    let buffer := item.docs ++ "typedef struct " ++ item.name
    match item.node with
    | ItemKind.structKind variants generics =>
      if generics then
        some (Except.error
          ⟨Level.error, "bindgen can not handle parameterized `#[repr(C)]` structs"⟩,
          st, outputs)
      else
        match variants with
        | VariantData.structFields fields =>
          match parse_fields st module fields (buffer ++ " \x7b\n") with
          | none => none
          | some (Except.error e, st2) => some (Except.error e, st2, outputs)
          | some (Except.ok buf2, st2) =>
            let buffer := buf2 ++ "\x7d" ++ " " ++ item.name ++ ";\n\n"
            match append_to_header st2 buffer module outputs with
            | none => none
            | some outputs2 =>
              match header_name module st2.lib_name with
              | none => none
              | some header =>
                some (Except.ok (),
                  LangC.mk st2.lib_name (insertA st2.decls item.name header) st2.deps, outputs2)
        | VariantData.tuple 1 =>
          let buffer := buffer ++ " " ++ item.name ++ ";\n\n"
          match append_to_header st buffer module outputs with
          | none => none
          | some outputs2 =>
            match header_name module st.lib_name with
            | none => none
            | some header =>
              some (Except.ok (),
                LangC.mk st.lib_name (insertA st.decls item.name header) st.deps, outputs2)
        | _ =>
          some (Except.error
            ⟨Level.error,
              "bindgen can not handle unit or tuple `#[repr(C)]` structs with >1 members"⟩,
            st, outputs)
    | _ => some (Except.error ⟨Level.bug, "`parse_struct` called on wrong `Item_`"⟩, st, outputs)

/-- True exactly for the never type; models the source guard
`ty.node == ast::TyKind::Never` in `transform_native_fn`. -/
def RTy.isNever : RTy → Bool
  | RTy.never => true
  | _ => false

/-- Argument loop of `transform_native_fn`: each argument is translated by
`rust_to_c` under its pattern name, its dependencies are recorded, and the
translated argument is collected; the first failure returns immediately
with the state mutated so far. -/
def transform_args (st : LangC) (module : List String) :
    List (String × RTy) → List (String × CType) →
    Option (Except CErr (List (String × CType)) × LangC)
  | [], args => some (Except.ok args, st)
  | (arg_name, arg_ty) :: rest, args =>
    match rust_to_c arg_ty arg_name with
    | Except.error e => some (Except.error e, st)
    | Except.ok c_ty =>
      match add_dependencies st module c_ty.2 with
      | none => none
      | some st2 => transform_args st2 module rest (args ++ [c_ty])

/-- Mirrors `transform_native_fn` (`LangC`): translate every argument in
order (recording dependencies per argument), render `name(args)` with
`void` for an empty list, reject a diverging return type, render a
defaulted return as `void name(args)`, otherwise translate the return type
using the whole name-plus-parameter string as associated name and record
its dependencies; finally append docs plus declaration plus `;` to the
declaration's header. -/
def transform_native_fn (st : LangC) (fn_inputs : List (String × RTy))
    (fn_output : FunctionRetTy) (docs : String) (name : String)
    (module : List String) (outputs : Outputs) :
    Option (Except CErr Unit × LangC × Outputs) :=
  match transform_args st module fn_inputs [] with
  | none => none
  | some (Except.error e, st2) => some (Except.error e, st2, outputs)
  | some (Except.ok args, st2) =>
    let buf := name ++ "(" ++
      (if args.isEmpty then "void"
       else String.intercalate ", " (args.map (fun c => ctype_named_to_string c))) ++ ")"
    match fn_output with
    | FunctionRetTy.default =>
      let output := docs ++ ("void " ++ buf) ++ ";\n\n"
      match header_name module st2.lib_name with
      | none => none
      | some header => some (Except.ok (), st2, append_output output header outputs)
    | FunctionRetTy.ty ty =>
      if ty.isNever then
        some (Except.error ⟨Level.error, "panics across a C boundary are naughty!"⟩,
          st2, outputs)
      else
        match rust_to_c ty buf with
        | Except.error e => some (Except.error e, st2, outputs)
        | Except.ok c_ty =>
          match add_dependencies st2 module c_ty.2 with
          | none => none
          | some st3 =>
            let output := docs ++ ctype_named_to_string c_ty ++ ";\n\n"
            match header_name module st3.lib_name with
            | none => none
            | some header => some (Except.ok (), st3, append_output output header outputs)

/-! The finalization step (`finalise_output`).  The petgraph pieces are
modelled as follows: the node set is the key list of `Outputs`; the
`BTreeSet` of edges is a duplicate-free list of (producer, consumer) pairs;
`algo::toposort` is modelled by Kahn's algorithm (`kahn`), which returns a
topological order exactly when the edge set is acyclic — the properties the
source relies on.  The `unwrap!` around `toposort` panics on a cycle, and
the `HashMap` index `nodes_map[&pred]` panics when a producer header is not
an output key; both panics are modelled as `none`. -/

/-- True when node `n` has no incoming edge from the remaining node set. -/
def no_incoming (edges : List (String × String)) (remaining : List String)
    (n : String) : Bool :=
  decide (∀ m ∈ remaining, (m, n) ∉ edges)

/-- Kahn's algorithm step: the first remaining node with no incoming edge. -/
def pick_ready (edges : List (String × String)) (remaining : List String) :
    Option String :=
  remaining.find? (no_incoming edges remaining)

/-- Kahn's algorithm over a fixed edge list; models `algo::toposort`.  The
fuel is instantiated with the node count, which always suffices. -/
def kahn (edges : List (String × String)) : List String → Nat → Option (List String)
  | [], _ => some []
  | _ :: _, 0 => none
  | r :: rs, fuel + 1 =>
    match pick_ready edges (r :: rs) with
    | none => none
    | some n =>
      match kahn edges ((r :: rs).erase n) fuel with
      | none => none
      | some rest => some (n :: rest)

/-- Insert an edge unless already present (the `BTreeSet` dedup). -/
def add_edge (edges : List (String × String)) (e : String × String) :
    List (String × String) :=
  if e ∈ edges then edges else edges ++ [e]

/-- Dependency-edge collection for one consumer header: every recorded name
that `decls` resolves adds a (producer, consumer) edge, self-edges are
skipped, and a producer that is not an output key is the modelled
`nodes_map` index panic (`none`). -/
def resolve_deps (decls : List (String × String)) (keys : List String)
    (consumer : String) :
    List String → List (String × String) → Option (List (String × String))
  | [], edges => some edges
  | d :: ds, edges =>
    match lookupA decls d with
    | none => resolve_deps decls keys consumer ds edges
    | some pred =>
      if pred = consumer then resolve_deps decls keys consumer ds edges
      else if pred ∈ keys then
        resolve_deps decls keys consumer ds (add_edge edges (pred, consumer))
      else none

/-- Edge collection over all output keys (the graph-building part of the
`outputs.iter_mut()` loop of `finalise_output`). -/
def build_edges_go (decls : List (String × String)) (deps : List (String × List String))
    (keys : List String) :
    List String → List (String × String) → Option (List (String × String))
  | [], edges => some edges
  | k :: ks, edges =>
    match lookupDeps deps k with
    | none => build_edges_go decls deps keys ks edges
    | some ds =>
      match resolve_deps decls keys k ds edges with
      | none => none
      | some edges2 => build_edges_go decls deps keys ks edges2

/-- All dependency edges of a run. -/
def build_edges (decls : List (String × String)) (deps : List (String × List String))
    (keys : List String) : Option (List (String × String)) :=
  build_edges_go decls deps keys keys []

/-- The per-header wrapping of `finalise_output`: prepend the two fixed
includes, wrap with the `extern "C"` block, then with the include guard. -/
def finalise_wrap (value : String) (header : String) : String :=
  wrap_guard ( wrap_extern ("#include <stdint.h>\n#include <stdbool.h>\n\n" ++ value)) header

/-- Mirrors `finalise_output`: wrap every header, build the dependency
graph over the output keys, topologically sort it, and insert the umbrella
header (named from the library name) listing one include per header in
sorted order.  The source fuses wrapping and edge building into one loop;
since a panic (modelled `none`) discards all results, the fission is
observationally equal.  The sorted key list is returned alongside the
updated outputs so that theorems can speak about the include order. -/
def finalise_output (st : LangC) (outputs : Outputs) : Option (Outputs × List String) :=
  let keys := outputs.map Prod.fst
  let wrapped := outputs.map (fun p => (p.1, finalise_wrap p.2 p.1))
  match build_edges st.decls st.deps keys with
  | none => none
  | some edges =>
    match kahn edges keys keys.length with
    | none => none
    | some sorted =>
      let module_includes :=
        String.join (sorted.map (fun h => "#include \"" ++ h ++ "\"\n"))
      some (insertA wrapped (st.lib_name ++ ".h") module_includes, sorted)

/-! Lemmas about the association-list maps. -/

lemma lookupA_insertA_self (l : List (String × String)) (k v : String) :
    lookupA (insertA l k v) k = some v := by
  induction l with
  | nil => simp [insertA, lookupA]
  | cons hd tl ih =>
    obtain ⟨k', v'⟩ := hd
    by_cases h : k' = k
    · simp [insertA, h, lookupA]
    · simp [insertA, h, lookupA, ih]

lemma lookupA_insertA_ne (l : List (String × String)) (k v n : String) (h : n ≠ k) :
    lookupA (insertA l k v) n = lookupA l n := by
  induction l with
  | nil => simp [insertA, lookupA, Ne.symm h]
  | cons hd tl ih =>
    obtain ⟨k', v'⟩ := hd
    by_cases hk : k' = k
    · subst hk
      simp [insertA, lookupA, Ne.symm h]
    · simp only [insertA, if_neg hk, lookupA]
      by_cases hn : k' = n
      · simp [hn]
      · simp [hn, ih]

lemma lookupA_insertA_isSome (l : List (String × String)) (k v n : String)
    (h : (lookupA l n).isSome) : (lookupA (insertA l k v) n).isSome := by
  by_cases hn : n = k
  · subst hn; simp [lookupA_insertA_self]
  · rwa [lookupA_insertA_ne l k v n hn]

lemma lookupDeps_depsAdd_extends (deps : List (String × List String))
    (h : String) (ds : List String) (n : String) (v : List String)
    (hv : lookupDeps deps n = some v) :
    ∃ w, lookupDeps (depsAdd deps h ds) n = some (v ++ w) := by
  induction deps with
  | nil => simp [lookupDeps] at hv
  | cons hd tl ih =>
    obtain ⟨k, val⟩ := hd
    by_cases hk : k = h
    · subst hk
      by_cases hn : k = n
      · subst hn
        simp [lookupDeps] at hv
        subst hv
        exact ⟨ds, by simp [depsAdd, lookupDeps]⟩
      · simp only [lookupDeps, if_neg hn] at hv
        exact ⟨[], by simp [depsAdd, lookupDeps, hn, hv]⟩
    · by_cases hn : k = n
      · subst hn
        simp [lookupDeps] at hv
        subst hv
        exact ⟨[], by simp [depsAdd, lookupDeps, hk]⟩
      · simp only [lookupDeps, if_neg hn] at hv
        obtain ⟨w, hw⟩ := ih hv
        exact ⟨w, by simp [depsAdd, lookupDeps, hk, hn, hw]⟩

lemma lookupA_map_wrap (outputs : Outputs) (f : String → String → String) (h : String) :
    lookupA (outputs.map (fun p => (p.1, f p.1 p.2))) h =
      (lookupA outputs h).map (f h) := by
  induction outputs with
  | nil => simp [lookupA]
  | cons hd tl ih =>
    obtain ⟨k, v⟩ := hd
    by_cases hk : k = h
    · subst hk; simp [lookupA]
    · simp [lookupA, hk, ih]

/-! Lemmas about Kahn's algorithm: a returned list is a permutation of the
node set, and it respects every edge between distinct present nodes. -/

lemma kahn_perm (edges : List (String × String)) :
    ∀ (fuel : Nat) (remaining l : List String),
      remaining.length ≤ fuel → kahn edges remaining fuel = some l →
      l.Perm remaining := by
  intro fuel
  induction fuel with
  | zero =>
    intro remaining l hlen h
    cases remaining with
    | nil => simp [kahn] at h; simp [h]
    | cons r rs => simp [kahn] at h
  | succ fuel ih =>
    intro remaining l hlen h
    cases remaining with
    | nil => simp [kahn] at h; simp [h]
    | cons r rs =>
      rw [kahn] at h
      cases hp : pick_ready edges (r :: rs) with
      | none => simp [hp] at h
      | some n =>
        simp only [hp] at h
        cases hk : kahn edges ((r :: rs).erase n) fuel with
        | none => simp [hk] at h
        | some rest =>
          simp only [hk, Option.some.injEq] at h
          subst h
          have hn : n ∈ r :: rs := List.mem_of_find?_eq_some hp
          have hlen2 : ((r :: rs).erase n).length ≤ fuel := by
            rw [List.length_erase_of_mem hn]
            simp only [List.length_cons] at hlen ⊢
            omega
          have hperm := ih _ _ hlen2 hk
          exact (hperm.cons n).trans (List.perm_cons_erase hn).symm

lemma kahn_before (edges : List (String × String)) :
    ∀ (fuel : Nat) (remaining l : List String),
      remaining.length ≤ fuel → kahn edges remaining fuel = some l →
      ∀ a b, (a, b) ∈ edges → a ∈ remaining → b ∈ remaining → a ≠ b →
        List.Sublist [a, b] l := by
  intro fuel
  induction fuel with
  | zero =>
    intro remaining l hlen h a b hab ha hb hne
    cases remaining with
    | nil => simp at ha
    | cons r rs => simp [kahn] at h
  | succ fuel ih =>
    intro remaining l hlen h a b hab ha hb hne
    cases remaining with
    | nil => simp at ha
    | cons r rs =>
      rw [kahn] at h
      cases hp : pick_ready edges (r :: rs) with
      | none => simp [hp] at h
      | some n =>
        simp only [hp] at h
        cases hk : kahn edges ((r :: rs).erase n) fuel with
        | none => simp [hk] at h
        | some rest =>
          simp only [hk, Option.some.injEq] at h
          subst h
          have hn : n ∈ r :: rs := List.mem_of_find?_eq_some hp
          have hready : no_incoming edges (r :: rs) n = true := List.find?_some hp
          rw [no_incoming, decide_eq_true_eq] at hready
          have hlen2 : ((r :: rs).erase n).length ≤ fuel := by
            rw [List.length_erase_of_mem hn]
            simp only [List.length_cons] at hlen ⊢
            omega
          by_cases hnb : n = b
          · exact absurd hab (hnb ▸ hready a ha)
          · by_cases hna : n = a
            · subst hna
              have hbrest : b ∈ rest := by
                have := kahn_perm edges fuel _ rest hlen2 hk
                exact this.mem_iff.mpr
                  ((List.mem_erase_of_ne (fun hh => hnb hh.symm)).mpr hb)
              exact List.Sublist.cons₂ n (List.singleton_sublist.mpr hbrest)
            · have ha2 : a ∈ (r :: rs).erase n :=
                (List.mem_erase_of_ne (fun hh => hna hh.symm)).mpr ha
              have hb2 : b ∈ (r :: rs).erase n :=
                (List.mem_erase_of_ne (fun hh => hnb hh.symm)).mpr hb
              exact List.Sublist.cons n (ih _ rest hlen2 hk a b hab ha2 hb2 hne)

/-! Lemmas about edge collection. -/

lemma add_edge_mem_self (edges : List (String × String)) (e : String × String) :
    e ∈ add_edge edges e := by
  by_cases h : e ∈ edges <;> simp [add_edge, h]

lemma add_edge_mono (edges : List (String × String)) (e x : String × String)
    (hx : x ∈ edges) : x ∈ add_edge edges e := by
  by_cases h : e ∈ edges <;> simp [add_edge, h, hx]

lemma resolve_deps_mono (decls : List (String × String)) (keys : List String)
    (c : String) :
    ∀ (ds : List String) (edges E : List (String × String)),
      resolve_deps decls keys c ds edges = some E → ∀ x ∈ edges, x ∈ E := by
  intro ds
  induction ds with
  | nil => intro edges E h x hx; simp [resolve_deps] at h; simpa [← h] using hx
  | cons d ds ih =>
    intro edges E h x hx
    rw [resolve_deps] at h
    cases hl : lookupA decls d with
    | none =>
      simp only [hl] at h
      exact ih edges E h x hx
    | some pred =>
      simp only [hl] at h
      by_cases hpc : pred = c
      · simp only [if_pos hpc] at h
        exact ih edges E h x hx
      · simp only [if_neg hpc] at h
        by_cases hpk : pred ∈ keys
        · simp only [if_pos hpk] at h
          exact ih _ E h x (add_edge_mono _ _ _ hx)
        · simp only [if_neg hpk] at h
          exact absurd h (by simp)

lemma resolve_deps_adds (decls : List (String × String)) (keys : List String)
    (c : String) :
    ∀ (ds : List String) (edges E : List (String × String)),
      resolve_deps decls keys c ds edges = some E →
      ∀ d ∈ ds, ∀ a, lookupA decls d = some a → a ≠ c → (a, c) ∈ E ∧ a ∈ keys := by
  intro ds
  induction ds with
  | nil => intro edges E h d hd; simp at hd
  | cons d0 ds ih =>
    intro edges E h d hd a ha hne
    rw [resolve_deps] at h
    rcases List.mem_cons.mp hd with hd0 | hds
    · subst hd0
      simp only [ha] at h
      rw [if_neg hne] at h
      by_cases hpk : a ∈ keys
      · simp only [if_pos hpk] at h
        exact ⟨resolve_deps_mono decls keys c ds _ E h _ (add_edge_mem_self _ _), hpk⟩
      · simp only [if_neg hpk] at h
        exact absurd h (by simp)
    · cases hl : lookupA decls d0 with
      | none =>
        simp only [hl] at h
        exact ih edges E h d hds a ha hne
      | some pred =>
        simp only [hl] at h
        by_cases hpc : pred = c
        · simp only [if_pos hpc] at h
          exact ih edges E h d hds a ha hne
        · simp only [if_neg hpc] at h
          by_cases hpk : pred ∈ keys
          · simp only [if_pos hpk] at h
            exact ih _ E h d hds a ha hne
          · simp only [if_neg hpk] at h
            exact absurd h (by simp)

lemma build_edges_go_mono (decls : List (String × String))
    (deps : List (String × List String)) (keys : List String) :
    ∀ (ks : List String) (edges E : List (String × String)),
      build_edges_go decls deps keys ks edges = some E → ∀ x ∈ edges, x ∈ E := by
  intro ks
  induction ks with
  | nil => intro edges E h x hx; simp [build_edges_go] at h; simpa [← h] using hx
  | cons k ks ih =>
    intro edges E h x hx
    rw [build_edges_go] at h
    cases hl : lookupDeps deps k with
    | none =>
      simp only [hl] at h
      exact ih edges E h x hx
    | some ds =>
      simp only [hl] at h
      cases hr : resolve_deps decls keys k ds edges with
      | none => simp only [hr] at h; exact absurd h (by simp)
      | some edges2 =>
        simp only [hr] at h
        exact ih edges2 E h x (resolve_deps_mono decls keys k ds edges edges2 hr x hx)

lemma build_edges_go_adds (decls : List (String × String))
    (deps : List (String × List String)) (keys : List String) :
    ∀ (ks : List String) (edges E : List (String × String)),
      build_edges_go decls deps keys ks edges = some E →
      ∀ b ∈ ks, ∀ ds, lookupDeps deps b = some ds →
        ∀ d ∈ ds, ∀ a, lookupA decls d = some a → a ≠ b → (a, b) ∈ E ∧ a ∈ keys := by
  intro ks
  induction ks with
  | nil => intro edges E h b hb; simp at hb
  | cons k ks ih =>
    intro edges E h b hb ds hds d hd a ha hne
    rw [build_edges_go] at h
    rcases List.mem_cons.mp hb with hbk | hbs
    · subst hbk
      simp only [hds] at h
      cases hr : resolve_deps decls keys b ds edges with
      | none => simp only [hr] at h; exact absurd h (by simp)
      | some edges2 =>
        simp only [hr] at h
        have hmem := resolve_deps_adds decls keys b ds edges edges2 hr d hd a ha hne
        exact ⟨build_edges_go_mono decls deps keys ks edges2 E h _ hmem.1, hmem.2⟩
    · cases hl : lookupDeps deps k with
      | none =>
        simp only [hl] at h
        exact ih edges E h b hbs ds hds d hd a ha hne
      | some ds0 =>
        simp only [hl] at h
        cases hr : resolve_deps decls keys k ds0 edges with
        | none => simp only [hr] at h; exact absurd h (by simp)
        | some edges2 =>
          simp only [hr] at h
          exact ih edges2 E h b hbs ds hds d hd a ha hne

/-- Destructuring of a successful finalization: the collected edges, the
sorted key list and the shape of the final outputs. -/
lemma finalise_output_some (st : LangC) (outputs : Outputs) (outs : Outputs)
    (sorted : List String) (h : finalise_output st outputs = some (outs, sorted)) :
    ∃ edges, build_edges st.decls st.deps (outputs.map Prod.fst) = some edges ∧
      kahn edges (outputs.map Prod.fst) (outputs.map Prod.fst).length = some sorted ∧
      outs = insertA (outputs.map (fun p => (p.1, finalise_wrap p.2 p.1)))
        (st.lib_name ++ ".h")
        (String.join (sorted.map (fun hh => "#include \"" ++ hh ++ "\"\n"))) := by
  rw [finalise_output] at h
  cases hb : build_edges st.decls st.deps (outputs.map Prod.fst) with
  | none => simp only [hb] at h; exact absurd h (by simp)
  | some edges =>
    simp only [hb] at h
    cases hk : kahn edges (outputs.map Prod.fst) (outputs.map Prod.fst).length with
    | none => simp only [hk] at h; exact absurd h (by simp)
    | some sorted2 =>
      simp only [hk] at h
      simp only [Option.some.injEq, Prod.mk.injEq] at h
      obtain ⟨h1, h2⟩ := h
      subst h2
      exact ⟨edges, rfl, hk, h1.symm⟩

/-! Lemmas about the state threaded through declaration processing. -/

lemma add_dependencies_state (st : LangC) (module : List String) (cty : CType)
    (st2 : LangC) (h : add_dependencies st module cty = some st2) :
    st2.decls = st.decls ∧ st2.lib_name = st.lib_name ∧
      ∀ n v, lookupDeps st.deps n = some v → ∃ w, lookupDeps st2.deps n = some (v ++ w) := by
  rw [add_dependencies] at h
  by_cases he : cty.dependencies.isEmpty
  · rw [if_pos he] at h
    simp only [Option.some.injEq] at h
    subst h
    exact ⟨rfl, rfl, fun n v hv => ⟨[], by simpa using hv⟩⟩
  · rw [if_neg he] at h
    cases hh : header_name module st.lib_name with
    | none => simp only [hh] at h; exact absurd h (by simp)
    | some header =>
      simp only [hh] at h
      simp only [Option.some.injEq] at h
      subst h
      exact ⟨rfl, rfl, fun n v hv => lookupDeps_depsAdd_extends st.deps header _ n v hv⟩

lemma parse_fields_state (module : List String) :
    ∀ (fields : List (String × String × RTy)) (st : LangC) (buf : String)
      (r : Except CErr String) (st2 : LangC),
      parse_fields st module fields buf = some (r, st2) →
      st2.decls = st.decls ∧ st2.lib_name = st.lib_name ∧
        ∀ n v, lookupDeps st.deps n = some v →
          ∃ w, lookupDeps st2.deps n = some (v ++ w) := by
  intro fields
  induction fields with
  | nil =>
    intro st buf r st2 h
    simp only [parse_fields, Option.some.injEq, Prod.mk.injEq] at h
    rw [← h.2]
    exact ⟨rfl, rfl, fun n v hv => ⟨[], by simpa using hv⟩⟩
  | cons f fs ih =>
    intro st buf r st2 h
    obtain ⟨fdocs, fname, fty⟩ := f
    rw [parse_fields] at h
    cases hc : rust_to_c fty fname with
    | error e =>
      simp only [hc] at h
      simp only [Option.some.injEq, Prod.mk.injEq] at h
      rw [← h.2]
      exact ⟨rfl, rfl, fun n v hv => ⟨[], by simpa using hv⟩⟩
    | ok ty =>
      simp only [hc] at h
      cases ha : add_dependencies st module ty.2 with
      | none => simp only [ha] at h; exact absurd h (by simp)
      | some stx =>
        simp only [ha] at h
        obtain ⟨hd1, hl1, he1⟩ := add_dependencies_state st module ty.2 stx ha
        obtain ⟨hd2, hl2, he2⟩ := ih stx _ r st2 h
        refine ⟨hd2.trans hd1, hl2.trans hl1, fun n v hv => ?_⟩
        obtain ⟨w1, hw1⟩ := he1 n v hv
        obtain ⟨w2, hw2⟩ := he2 n _ hw1
        exact ⟨w1 ++ w2, by rw [hw2, List.append_assoc]⟩


lemma transform_args_state (module : List String) :
    ∀ (inputs : List (String × RTy)) (st : LangC) (acc : List (String × CType))
      (r : Except CErr (List (String × CType))) (st2 : LangC),
      transform_args st module inputs acc = some (r, st2) →
      st2.decls = st.decls ∧ st2.lib_name = st.lib_name ∧
        ∀ n v, lookupDeps st.deps n = some v →
          ∃ w, lookupDeps st2.deps n = some (v ++ w) := by
  intro inputs
  induction inputs with
  | nil =>
    intro st acc r st2 h
    simp only [transform_args, Option.some.injEq, Prod.mk.injEq] at h
    rw [← h.2]
    exact ⟨rfl, rfl, fun n v hv => ⟨[], by simpa using hv⟩⟩
  | cons a rest ih =>
    intro st acc r st2 h
    obtain ⟨arg_name, arg_ty⟩ := a
    rw [transform_args] at h
    cases hc : rust_to_c arg_ty arg_name with
    | error e =>
      simp only [hc, Option.some.injEq, Prod.mk.injEq] at h
      rw [← h.2]
      exact ⟨rfl, rfl, fun n v hv => ⟨[], by simpa using hv⟩⟩
    | ok c_ty =>
      simp only [hc] at h
      cases ha : add_dependencies st module c_ty.2 with
      | none => simp [ha] at h
      | some stx =>
        simp only [ha] at h
        obtain ⟨hd1, hl1, he1⟩ := add_dependencies_state st module c_ty.2 stx ha
        obtain ⟨hd2, hl2, he2⟩ := ih stx _ r st2 h
        refine ⟨hd2.trans hd1, hl2.trans hl1, fun n v hv => ?_⟩
        obtain ⟨w1, hw1⟩ := he1 n v hv
        obtain ⟨w2, hw2⟩ := he2 n _ hw1
        exact ⟨w1 ++ w2, by rw [hw2, List.append_assoc]⟩

/-! Specification-side definitions used to state the claims. -/

/-- The fixed primitive table of the spec for unqualified names: the unit
type, the floats, the fixed-width and pointer-width integers, and `bool`. -/
def fixed_primitive_names : List String :=
  ["()", "f32", "f64", "i8", "i16", "i32", "i64", "isize",
   "u8", "u16", "u32", "u64", "usize", "bool"]

/-- Domain of the `libc` conversion table. -/
def libc_table_names : List String :=
  ["c_void", "c_float", "c_double", "c_char", "c_schar", "c_uchar", "c_short",
   "c_ushort", "c_int", "c_uint", "c_long", "c_ulong", "c_longlong", "c_ulonglong"]

/-- Domain of the `std::os::raw` conversion table. -/
def osraw_table_names : List String :=
  ["c_void", "c_char", "c_double", "c_float", "c_int", "c_long", "c_longlong",
   "c_schar", "c_short", "c_uchar", "c_uint", "c_ulong", "c_ulonglong", "c_ushort"]

/-- True exactly for the `Mapping` (opaque passthrough) variant. -/
def CType.isMapping : CType → Bool
  | CType.mapping _ => true
  | _ => false

/-- Transcription of the bit-exact header template asserted by the spec
(section 6), for the refinement claim C3.  This definition follows the
words of the spec, not the source. -/
def spec_header_template (id : String) (decls : String) : String :=
  "#ifndef bindgen_" ++ sanitise_id id ++ "\n#define bindgen_" ++ sanitise_id id ++
    "\n#include <stdint.h>\n#include <stdbool.h>\n\n#ifdef __cplusplus\nextern \"C\" \x7b\n#endif\n\n" ++
    decls ++ "\n\n#ifdef __cplusplus\n\x7d\n#endif\n\n#endif\n"

/-- The rendered const-qualifier of one source pointer level. -/
def mutbl_qual : Mutbl → String
  | Mutbl.immutable => " const"
  | Mutbl.mutable => ""

/-- Build a nested raw-pointer type; the head of the list is the outermost
pointer level. -/
def nest_ptrs (base : RTy) : List Mutbl → RTy
  | [] => base
  | m :: ms => RTy.ptr (nest_ptrs base ms) m

/-- The expected rendering of a nested pointer chain over keyword `k`: each
level contributes its qualifier and one `*`, with the innermost level
leftmost (outer levels are appended to the right). -/
def ptr_chain_str (k : String) : List Mutbl → String
  | [] => k
  | m :: ms => ptr_chain_str k ms ++ mutbl_qual m ++ "*"

/-- Idempotence of a single-predicate filter. -/
lemma filter_self_idem (p : Char → Bool) (l : List Char) :
    (l.filter p).filter p = l.filter p := by
  induction l with
  | nil => rfl
  | cons c cs ih => by_cases hp : p c <;> simp [List.filter_cons, hp, ih]

/-! Claim theorems. -/

/-- C9: `sanitise_id` is idempotent, maps the empty string to the empty
string, and maps `"filename.h"` to `"filenameh"`. -/
theorem sanitise_id_idempotent_empty_example :
    (∀ s, sanitise_id (sanitise_id s) = sanitise_id s) ∧
      sanitise_id "" = "" ∧ sanitise_id "filename.h" = "filenameh" := by
  refine ⟨fun s => ?_, by decide, by decide⟩
  simp only [sanitise_id]
  exact congrArg String.mk (filter_self_idem _ s.data)

/-- C7: `header_name` is a pure function of the module path and library
name; a boundary-sentinel (`ffi`) first segment is replaced by the library
name, the single-segment sentinel path expands to `lib/lib` plus the header
suffix, and in general the segments are joined with the path separator with
`.h` appended. -/
theorem header_name_behaviour (lib m0 : String) (rest : List String) :
    (m0 = "ffi" → rest = [] → header_name (m0 :: rest) lib =
      some (lib ++ "/" ++ lib ++ ".h")) ∧
    (m0 = "ffi" → rest ≠ [] → header_name (m0 :: rest) lib =
      some (String.intercalate "/" (lib :: rest) ++ ".h")) ∧
    (m0 ≠ "ffi" → header_name (m0 :: rest) lib =
      some (String.intercalate "/" (m0 :: rest) ++ ".h")) := by
  refine ⟨?_, ?_, ?_⟩
  · intro h1 h2
    subst h1; subst h2
    simp [header_name, String.intercalate, String.intercalate.go]
  · intro h1 h2
    subst h1
    simp [header_name, List.isEmpty_iff, h2]
  · intro h1
    simp [header_name, h1]

/-- Witness for C7 at concrete inputs, covering all three cases. -/
theorem header_name_behaviour_witness :
    header_name ["ffi"] "safe_app" = some ("safe_app" ++ "/" ++ "safe_app" ++ ".h") ∧
    header_name ["ffi", "m"] "safe_app" =
      some (String.intercalate "/" ["safe_app", "m"] ++ ".h") ∧
    header_name ["util"] "safe_app" =
      some (String.intercalate "/" ["util"] ++ ".h") :=
  ⟨(header_name_behaviour "safe_app" "ffi" []).1 rfl rfl,
   (header_name_behaviour "safe_app" "ffi" ["m"]).2.1 rfl (by simp),
   (header_name_behaviour "safe_app" "util" []).2.2 (by simp)⟩

/-- C2 (counterexample): `"c_void"` is an unqualified name outside the
fixed primitive table, yet `rust_ty_to_c` does not pass it through as
`Mapping "c_void"` — the fallback arm consults the `libc` table first and
yields `Void`. -/
theorem rust_ty_to_c_not_always_passthrough :
    "c_void" ∉ fixed_primitive_names ∧
      rust_ty_to_c "c_void" = CType.void ∧
      ∀ s, rust_ty_to_c "c_void" ≠ CType.mapping s := by
  refine ⟨by decide, rfl, fun s h => ?_⟩
  rw [show rust_ty_to_c "c_void" = CType.void from rfl] at h
  exact CType.noConfusion h

/-- C2 (amended): an unqualified name outside both the fixed primitive
table and the `libc` conversion table passes through unchanged as
`Mapping name`; a name inside the fixed primitive table always takes the
fixed table translation, never the opaque passthrough. -/
theorem rust_ty_to_c_passthrough (name : String) :
    (name ∉ fixed_primitive_names → name ∉ libc_table_names →
      rust_ty_to_c name = CType.mapping name) ∧
    (name ∈ fixed_primitive_names → (rust_ty_to_c name).isMapping = false) := by
  constructor
  · intro h1 h2
    unfold rust_ty_to_c
    split
    all_goals first
      | (exact absurd (by decide) h1)
      | skip
    unfold libc_ty_to_c
    split
    all_goals first
      | rfl
      | (exact absurd (by decide) h2)
  · intro h1
    fin_cases h1 <;> rfl

/-- Witness for C2 (amended) at concrete inputs. -/
theorem rust_ty_to_c_passthrough_witness :
    rust_ty_to_c "Handle" = CType.mapping "Handle" ∧
      (rust_ty_to_c "bool").isMapping = false :=
  ⟨(rust_ty_to_c_passthrough "Handle").1 (by decide) (by decide),
   (rust_ty_to_c_passthrough "bool").2 (by decide)⟩

/-- C10: inside the two recognised foreign-primitive modules, a name
outside the module's conversion table is not rejected: it passes through as
a bare `Mapping name` with the module prefix stripped. -/
theorem module_unknown_name_passthrough (name : String) :
    (name ∉ libc_table_names → path_to_c ["libc", name] = Except.ok (CType.mapping name)) ∧
    (name ∉ osraw_table_names →
      path_to_c ["std", "os", "raw", name] = Except.ok (CType.mapping name)) := by
  constructor
  · intro h1
    show Except.ok (libc_ty_to_c name) = _
    unfold libc_ty_to_c
    split
    all_goals first
      | rfl
      | (exact absurd (by decide) h1)
  · intro h2
    show Except.ok (osraw_ty_to_c name) = _
    unfold osraw_ty_to_c
    split
    all_goals first
      | rfl
      | (exact absurd (by decide) h2)

/-- Witness for C10: `libc::size_t` and `std::os::raw::size_t` both pass
through as the bare mapping `size_t`. -/
theorem module_unknown_name_passthrough_witness :
    path_to_c ["libc", "size_t"] = Except.ok (CType.mapping "size_t") ∧
    path_to_c ["std", "os", "raw", "size_t"] = Except.ok (CType.mapping "size_t") :=
  ⟨(module_unknown_name_passthrough "size_t").1 (by decide),
   (module_unknown_name_passthrough "size_t").2 (by decide)⟩

/-- Auxiliary for C8: translating a nested pointer chain over a fixed-table
primitive succeeds, and its rendering is the linear qualifier chain with the
innermost level leftmost. -/
lemma anon_nest_ptrs (p k : String) (hk : rust_ty_to_c p = CType.native k)
    (ms : List Mutbl) :
    ∃ t, anon_rust_to_c (nest_ptrs (RTy.path [p]) ms) = Except.ok t ∧
      ctype_to_string t = ptr_chain_str k ms := by
  induction ms with
  | nil =>
    refine ⟨CType.native k, ?_, rfl⟩
    simp [nest_ptrs, anon_rust_to_c, path_to_c, hk]
  | cons m ms ih =>
    obtain ⟨t, ht, hs⟩ := ih
    refine ⟨CType.ptr t
      (match m with
       | Mutbl.immutable => CPtrType.const
       | Mutbl.mutable => CPtrType.mutable), ?_, ?_⟩
    · simp only [nest_ptrs, anon_rust_to_c]
      rw [ptr_to_c.eq_def, ht]
      rfl
    · cases m <;>
        simp [ctype_to_string, cptr_to_string, ptr_chain_str, mutbl_qual, hs]

/-- C8: for a primitive with target keyword `k`, each source pointer level
contributes one `*` whose ` const` qualifier appears exactly when that
level's binding is immutable, ordered to match the source nesting
(innermost leftmost); in particular one immutable level renders
`k const*` and two immutable levels render `k const* const*`. -/
theorem ptr_rendering (p k : String) (hk : rust_ty_to_c p = CType.native k)
    (ms : List Mutbl) :
    (anon_rust_to_c (nest_ptrs (RTy.path [p]) ms)).map ctype_to_string =
      Except.ok (ptr_chain_str k ms) ∧
    ptr_chain_str k [Mutbl.immutable] = k ++ " const*" ∧
    ptr_chain_str k [Mutbl.immutable, Mutbl.immutable] = k ++ " const* const*" := by
  obtain ⟨t, ht, hs⟩ := anon_nest_ptrs p k hk ms
  refine ⟨by rw [ht]; simpa [Except.map] using hs, ?_, ?_⟩
  · show ptr_chain_str k [] ++ mutbl_qual Mutbl.immutable ++ "*" = k ++ " const*"
    simp only [ptr_chain_str, mutbl_qual, String.append_assoc]
    rfl
  · show ptr_chain_str k [Mutbl.immutable] ++ mutbl_qual Mutbl.immutable ++ "*" =
      k ++ " const* const*"
    show ptr_chain_str k [] ++ mutbl_qual Mutbl.immutable ++ "*" ++
      mutbl_qual Mutbl.immutable ++ "*" = k ++ " const* const*"
    simp only [ptr_chain_str, mutbl_qual, String.append_assoc]
    rfl

/-- Witness for C8: `*const *const u8` renders `uint8_t const* const*`. -/
theorem ptr_rendering_witness :
    (anon_rust_to_c (nest_ptrs (RTy.path ["u8"]) [Mutbl.immutable, Mutbl.immutable])).map
        ctype_to_string =
      Except.ok (ptr_chain_str "uint8_t" [Mutbl.immutable, Mutbl.immutable]) ∧
    ptr_chain_str "uint8_t" [Mutbl.immutable, Mutbl.immutable] =
      "uint8_t" ++ " const* const*" :=
  ⟨(ptr_rendering "u8" "uint8_t" rfl [Mutbl.immutable, Mutbl.immutable]).1,
   (ptr_rendering "u8" "uint8_t" rfl [Mutbl.immutable, Mutbl.immutable]).2.2⟩

/-- C1 (code evidence): on a two-header dependency cycle the model of
`finalise_output` returns `none`, the model of the `unwrap!` panic on the
failed topological sort: no typed `DependencyCycle` error value is produced
(the source `Error` type has no such variant) and no umbrella header is
inserted — the whole call crashes instead of reporting. -/
theorem finalise_output_cycle_panics :
    finalise_output
      (LangC.mk "backend" [("TA", "a.h"), ("TB", "b.h")]
        [("a.h", ["TB"]), ("b.h", ["TA"])])
      [("a.h", "decl_a;\n\n"), ("b.h", "decl_b;\n\n")] = none := by rfl

/-- C3 (counterexample): the finalized wrapped text of a concrete header is
not the bit-exact section-6 template — it does not even start with
`#ifndef` (its first character is a newline). -/
theorem wrapped_header_differs_from_template :
    finalise_wrap "d;\n\n" "a.h" ≠ spec_header_template "a.h" "d;\n\n" ∧
      (finalise_wrap "d;\n\n" "a.h").data.head? = some (Char.ofNat 10) := by
  exact ⟨by decide, rfl⟩

/-- C3 (amended): for every header of `Outputs` other than the umbrella
name, the finalized text is the guard wrap of the linkage wrap of the two
fixed includes and the accumulated declarations: it starts with a newline,
a stray space-bearing line follows the guard opening, and the two includes
sit inside the conditional linkage block, exactly as flattened here. -/
theorem finalise_wrapped_format (st : LangC) (outputs : Outputs) (outs : Outputs)
    (sorted : List String) (h v : String)
    (hfin : finalise_output st outputs = some (outs, sorted))
    (hv : lookupA outputs h = some v) (hne : h ≠ st.lib_name ++ ".h") :
    lookupA outs h = some
      ("\n#ifndef bindgen_" ++ sanitise_id h ++ "\n#define bindgen_" ++ sanitise_id h ++
        "\n\n \n#ifdef __cplusplus\nextern \"C\" \x7b\n#endif\n\n#include <stdint.h>\n#include <stdbool.h>\n\n" ++
        v ++ "\n\n#ifdef __cplusplus\n\x7d\n#endif\n\n\n#endif\n") := by
  obtain ⟨edges, hb, hk, houts⟩ := finalise_output_some st outputs outs sorted hfin
  subst houts
  rw [lookupA_insertA_ne _ _ _ _ hne,
    lookupA_map_wrap outputs (fun hh vv => finalise_wrap vv hh) h, hv]
  show some (finalise_wrap v h) = _
  congr 1
  simp only [finalise_wrap, wrap_guard, wrap_extern, String.append_assoc]
  repeat first
    | rfl
    | congr 1

/-- Witness for C3 (amended): a concrete run with one dependency edge. -/
theorem finalise_wrapped_format_witness :
    lookupA
      ((finalise_output (LangC.mk "backend" [("Foo", "a.h")] [("b.h", ["Foo"])])
          [("a.h", "A a;\n\n"), ("b.h", "Foo b;\n\n")]).getD ([], [])).1
      "a.h" = some
      ("\n#ifndef bindgen_" ++ sanitise_id "a.h" ++ "\n#define bindgen_" ++
        sanitise_id "a.h" ++
        "\n\n \n#ifdef __cplusplus\nextern \"C\" \x7b\n#endif\n\n#include <stdint.h>\n#include <stdbool.h>\n\n" ++
        "A a;\n\n" ++ "\n\n#ifdef __cplusplus\n\x7d\n#endif\n\n\n#endif\n") :=
  finalise_wrapped_format
    (LangC.mk "backend" [("Foo", "a.h")] [("b.h", ["Foo"])])
    [("a.h", "A a;\n\n"), ("b.h", "Foo b;\n\n")] _ _ "a.h" "A a;\n\n"
    rfl rfl (by decide)


/-- C4: when finalization succeeds, the umbrella header lists exactly one
include per key of `Outputs` (a permutation of the keys; exactly once when
the keys are distinct), and for every recorded dependency of header `b` on
a name the registry maps to a different header `a`, the include for `a`
appears before the include for `b`. -/
theorem umbrella_order (st : LangC) (outputs : Outputs) (outs : Outputs)
    (sorted : List String)
    (hfin : finalise_output st outputs = some (outs, sorted)) :
    sorted.Perm (outputs.map Prod.fst) ∧
    ((outputs.map Prod.fst).Nodup →
      ∀ h2 ∈ outputs.map Prod.fst, sorted.count h2 = 1) ∧
    lookupA outs (st.lib_name ++ ".h") =
      some (String.join (sorted.map (fun hh => "#include \"" ++ hh ++ "\"\n"))) ∧
    (∀ a b ds d, b ∈ outputs.map Prod.fst → lookupDeps st.deps b = some ds →
      d ∈ ds → lookupA st.decls d = some a → a ≠ b →
      List.Sublist [a, b] sorted) := by
  obtain ⟨edges, hb, hk, houts⟩ := finalise_output_some st outputs outs sorted hfin
  have hperm := kahn_perm edges _ _ _ (Nat.le_refl _) hk
  refine ⟨hperm, ?_, ?_, ?_⟩
  · intro hnd h2 hh2
    rw [hperm.count_eq]
    exact List.count_eq_one_of_mem hnd hh2
  · subst houts
    exact lookupA_insertA_self _ _ _
  · intro a b ds d hbmem hds hd hdecl hne
    have hedge := build_edges_go_adds st.decls st.deps (outputs.map Prod.fst)
      (outputs.map Prod.fst) [] edges hb b hbmem ds hds d hd a hdecl hne
    exact kahn_before edges _ _ _ (Nat.le_refl _) hk a b hedge.1 hedge.2 hbmem hne

/-- Witness for C4: a run with two headers and one cross-header reference
puts the producer's include first and lists each header exactly once. -/
theorem umbrella_order_witness :
    ((finalise_output (LangC.mk "backend" [("Foo", "a.h")] [("b.h", ["Foo"])])
        [("a.h", "x"), ("b.h", "y")]).getD ([], [])).2.Perm ["a.h", "b.h"] ∧
    List.Sublist ["a.h", "b.h"]
      ((finalise_output (LangC.mk "backend" [("Foo", "a.h")] [("b.h", ["Foo"])])
          [("a.h", "x"), ("b.h", "y")]).getD ([], [])).2 := by
  have h := umbrella_order (LangC.mk "backend" [("Foo", "a.h")] [("b.h", ["Foo"])])
    [("a.h", "x"), ("b.h", "y")] _ _ rfl
  exact ⟨h.1, h.2.2.2 "a.h" "b.h" ["Foo"] "Foo" (by decide) rfl (by decide) rfl
    (by decide)⟩


/-- C5 (counterexample): a struct whose first field records a dependency
fact and whose second field is then rejected returns the structured error,
while the dependency fact from the malformed declaration remains in the
shared state — the malformed declaration does leave a trace. -/
theorem parse_struct_error_leaves_dependency_fact :
    parse_struct (LangC.mk "backend" [] [])
      (Item.mk true "" "S"
        (ItemKind.structKind
          (VariantData.structFields
            [("", "a", RTy.path ["Foo"]), ("", "b", RTy.path ["my_mod", "T"])]) false))
      ["ffi", "m"] [] =
    some (Except.error
        ⟨Level.error,
          "bindgen can not handle types in other modules (except `libc` and `std::os::raw`)"⟩,
      LangC.mk "backend" [] [("backend/m.h", ["Foo"])], []) ∧
    [("backend/m.h", ["Foo"])] ≠ ([] : List (String × List String)) := by
  constructor
  · simp only [parse_struct, parse_fields, rust_to_c, anon_rust_to_c, path_to_c,
      rust_ty_to_c, libc_ty_to_c, add_dependencies, CType.dependencies, header_name,
      depsAdd, ctype_named_to_string, ctype_to_string, CType.isFnDecl]
    rfl
  · simp

/-- C5 (amended): a structured rejection from processing a declaration —
`parse_struct` for structs, `transform_native_fn` for functions — is
returned with no text appended to `Outputs` and no `TypeRegistry` entry
recorded for the declaration; previously recorded registry facts are
untouched and previously recorded dependency lists survive (they can only
have grown by facts from the declaration's already-processed fields or
arguments). -/
theorem declaration_error_no_output_no_registry (st : LangC) (item : Item)
    (module : List String) (outputs : Outputs) (e : CErr) (st2 : LangC)
    (outputs2 : Outputs) (fn_inputs : List (String × RTy))
    (fn_output : FunctionRetTy) (docs name : String) :
    (parse_struct st item module outputs = some (Except.error e, st2, outputs2) →
      outputs2 = outputs ∧ st2.decls = st.decls ∧
        ∀ n v, lookupDeps st.deps n = some v →
          ∃ w, lookupDeps st2.deps n = some (v ++ w)) ∧
    (transform_native_fn st fn_inputs fn_output docs name module outputs =
        some (Except.error e, st2, outputs2) →
      outputs2 = outputs ∧ st2.decls = st.decls ∧
        ∀ n v, lookupDeps st.deps n = some v →
          ∃ w, lookupDeps st2.deps n = some (v ++ w)) := by
  constructor
  · intro h
    obtain ⟨rc, idocs, iname, node⟩ := item
    simp only [parse_struct] at h
    cases rc with
    | false => simp at h
    | true =>
      cases node with
      | tyAlias ty g =>
        simp only [Bool.not_true, Bool.false_eq_true, if_false, Option.some.injEq,
          Prod.mk.injEq] at h
        obtain ⟨_, hst, hout⟩ := h
        subst hst; subst hout
        exact ⟨rfl, rfl, fun n v hv => ⟨[], by simpa using hv⟩⟩
      | otherKind =>
        simp only [Bool.not_true, Bool.false_eq_true, if_false, Option.some.injEq,
          Prod.mk.injEq] at h
        obtain ⟨_, hst, hout⟩ := h
        subst hst; subst hout
        exact ⟨rfl, rfl, fun n v hv => ⟨[], by simpa using hv⟩⟩
      | structKind variants generics =>
        cases generics with
        | true =>
          simp only [Bool.not_true, Bool.false_eq_true, if_false, if_true,
            Option.some.injEq, Prod.mk.injEq] at h
          obtain ⟨_, hst, hout⟩ := h
          subst hst; subst hout
          exact ⟨rfl, rfl, fun n v hv => ⟨[], by simpa using hv⟩⟩
        | false =>
          simp only [Bool.not_true, Bool.false_eq_true, if_false] at h
          cases variants with
          | unitStruct =>
            simp only [Option.some.injEq, Prod.mk.injEq] at h
            obtain ⟨_, hst, hout⟩ := h
            subst hst; subst hout
            exact ⟨rfl, rfl, fun n v hv => ⟨[], by simpa using hv⟩⟩
          | tuple nf =>
            match nf with
            | 0 =>
              simp only [Option.some.injEq, Prod.mk.injEq] at h
              obtain ⟨_, hst, hout⟩ := h
              subst hst; subst hout
              exact ⟨rfl, rfl, fun n v hv => ⟨[], by simpa using hv⟩⟩
            | 1 =>
              cases happ : append_to_header st
                  (idocs ++ "typedef struct " ++ iname ++ " " ++ iname ++ ";\n\n")
                  module outputs with
              | none => simp [happ] at h
              | some o2 =>
                simp only [happ] at h
                cases hh : header_name module st.lib_name with
                | none => simp [hh] at h
                | some header => simp [hh] at h
            | (n + 2) =>
              simp only [Option.some.injEq, Prod.mk.injEq] at h
              obtain ⟨_, hst, hout⟩ := h
              subst hst; subst hout
              exact ⟨rfl, rfl, fun n v hv => ⟨[], by simpa using hv⟩⟩
          | structFields fields =>
            cases hpf : parse_fields st module fields
                (idocs ++ "typedef struct " ++ iname ++ " \x7b\n") with
            | none => simp [hpf] at h
            | some pr =>
              obtain ⟨r2, stx⟩ := pr
              cases r2 with
              | error e2 =>
                simp only [hpf, Option.some.injEq, Prod.mk.injEq] at h
                obtain ⟨_, hst, hout⟩ := h
                subst hst; subst hout
                obtain ⟨hd, _, he⟩ := parse_fields_state module fields st _ _ _ hpf
                exact ⟨rfl, hd, he⟩
              | ok buf2 =>
                simp only [hpf] at h
                cases happ : append_to_header stx
                    (buf2 ++ "\x7d" ++ " " ++ iname ++ ";\n\n") module outputs with
                | none => simp [happ] at h
                | some o2 =>
                  simp only [happ] at h
                  cases hh : header_name module stx.lib_name with
                  | none => simp [hh] at h
                  | some header => simp [hh] at h
  · intro h
    simp only [transform_native_fn] at h
    cases hta : transform_args st module fn_inputs [] with
    | none => simp [hta] at h
    | some pr =>
      obtain ⟨r2, stx⟩ := pr
      cases r2 with
      | error e2 =>
        simp only [hta, Option.some.injEq, Prod.mk.injEq] at h
        obtain ⟨_, hst, hout⟩ := h
        subst hst; subst hout
        obtain ⟨hd, _, he⟩ := transform_args_state module fn_inputs st _ _ _ hta
        exact ⟨rfl, hd, he⟩
      | ok args =>
        simp only [hta] at h
        cases fn_output with
        | default =>
          cases hh : header_name module stx.lib_name with
          | none => simp [hh] at h
          | some header => simp [hh] at h
        | ty ty =>
          simp only [] at h
          by_cases hnev : ty.isNever = true
          · rw [if_pos hnev] at h
            simp only [Option.some.injEq, Prod.mk.injEq] at h
            obtain ⟨_, hst, hout⟩ := h
            subst hst; subst hout
            obtain ⟨hd, _, he⟩ := transform_args_state module fn_inputs st _ _ _ hta
            exact ⟨rfl, hd, he⟩
          · rw [if_neg hnev] at h
            split at h
            next e2 heq =>
              simp only [Option.some.injEq, Prod.mk.injEq] at h
              obtain ⟨_, hst, hout⟩ := h
              subst hst; subst hout
              obtain ⟨hd, _, he⟩ := transform_args_state module fn_inputs st _ _ _ hta
              exact ⟨rfl, hd, he⟩
            next c_ty heq =>
              cases ha : add_dependencies stx module c_ty.2 with
              | none => simp [ha] at h
              | some st3 =>
                simp only [ha] at h
                cases hh : header_name module st3.lib_name with
                | none => simp [hh] at h
                | some header => simp [hh] at h

/-- Witness for C5 (amended): the struct run of the counterexample and an
analogous function run (first argument records a dependency, the return
type is then rejected), both exercised through the theorem. -/
theorem declaration_error_no_output_no_registry_witness :
    (([] : Outputs) = ([] : Outputs) ∧
      (LangC.mk "backend" [] [("backend/m.h", ["Foo"])]).decls =
        (LangC.mk "backend" [] []).decls ∧
      ∀ n v, lookupDeps (LangC.mk "backend" [] []).deps n = some v →
        ∃ w, lookupDeps (LangC.mk "backend" [] [("backend/m.h", ["Foo"])]).deps n =
          some (v ++ w)) ∧
    (([] : Outputs) = ([] : Outputs) ∧
      (LangC.mk "backend" [] [("backend/g.h", ["Foo"])]).decls =
        (LangC.mk "backend" [] []).decls ∧
      ∀ n v, lookupDeps (LangC.mk "backend" [] []).deps n = some v →
        ∃ w, lookupDeps (LangC.mk "backend" [] [("backend/g.h", ["Foo"])]).deps n =
          some (v ++ w)) :=
  ⟨(declaration_error_no_output_no_registry (LangC.mk "backend" [] [])
      (Item.mk true "" "S"
        (ItemKind.structKind
          (VariantData.structFields
            [("", "a", RTy.path ["Foo"]), ("", "b", RTy.path ["my_mod", "T"])]) false))
      ["ffi", "m"] []
      ⟨Level.error,
        "bindgen can not handle types in other modules (except `libc` and `std::os::raw`)"⟩
      (LangC.mk "backend" [] [("backend/m.h", ["Foo"])]) []
      [] FunctionRetTy.default "" "").1
    (by simp only [parse_struct, parse_fields, rust_to_c, anon_rust_to_c, path_to_c,
          rust_ty_to_c, libc_ty_to_c, add_dependencies, CType.dependencies, header_name,
          depsAdd, ctype_named_to_string, ctype_to_string, CType.isFnDecl]
        rfl),
   (declaration_error_no_output_no_registry (LangC.mk "backend" [] [])
      (Item.mk false "" "" ItemKind.otherKind) ["ffi", "g"] []
      ⟨Level.error,
        "bindgen can not handle types in other modules (except `libc` and `std::os::raw`)"⟩
      (LangC.mk "backend" [] [("backend/g.h", ["Foo"])]) []
      [("a", RTy.path ["Foo"])] (FunctionRetTy.ty (RTy.path ["my_mod", "T"])) "" "f").2
    (by simp only [transform_native_fn, transform_args, rust_to_c, anon_rust_to_c,
          path_to_c, rust_ty_to_c, libc_ty_to_c, add_dependencies, CType.dependencies,
          header_name, depsAdd, ctype_named_to_string, ctype_to_string, CType.isFnDecl,
          RTy.isNever]
        rfl)⟩

/-- C6 (counterexample): two successful declarations of the same exported
name `A` in different modules: the second `decls.insert` overwrites the
first association `backend/x.h` with the different header `backend/y.h`. -/
theorem parse_ty_overwrites_registry :
    parse_ty (LangC.mk "backend" [] [])
      (Item.mk false "" "A" (ItemKind.tyAlias (RTy.path ["u8"]) false))
      ["ffi", "x"] [] =
      some (Except.ok (), LangC.mk "backend" [("A", "backend/x.h")] [],
        [("backend/x.h", "typedef uint8_t A;\n\n")]) ∧
    parse_ty (LangC.mk "backend" [("A", "backend/x.h")] [])
      (Item.mk false "" "A" (ItemKind.tyAlias (RTy.path ["u8"]) false))
      ["ffi", "y"] [] =
      some (Except.ok (), LangC.mk "backend" [("A", "backend/y.h")] [],
        [("backend/y.h", "typedef uint8_t A;\n\n")]) ∧
    lookupA [("A", "backend/x.h")] "A" = some "backend/x.h" ∧
    lookupA [("A", "backend/y.h")] "A" = some "backend/y.h" ∧
    "backend/y.h" ≠ "backend/x.h" := by
  refine ⟨?_, ?_, rfl, rfl, by decide⟩
  all_goals
    simp only [parse_ty, rust_to_c, anon_rust_to_c, path_to_c, rust_ty_to_c,
      libc_ty_to_c, append_to_header, header_name, append_output, insertA,
      ctype_named_to_string, ctype_to_string, CType.isFnDecl]
  all_goals rfl

/-- C6 (amended): processing a declaration through `parse_ty` or
`parse_struct` never removes a registry association and never changes the
association of any name other than the declaration's own exported name; a
successful redeclaration of an already-registered name overwrites its
association (`BTreeMap::insert` semantics). -/
theorem registry_never_removed (st : LangC) (item : Item) (module : List String)
    (outputs : Outputs) (r : Except CErr Unit) (st2 : LangC) (outputs2 : Outputs) :
    (parse_ty st item module outputs = some (r, st2, outputs2) →
      (∀ n, n ≠ item.name → lookupA st2.decls n = lookupA st.decls n) ∧
      (∀ n, (lookupA st.decls n).isSome → (lookupA st2.decls n).isSome)) ∧
    (parse_struct st item module outputs = some (r, st2, outputs2) →
      (∀ n, n ≠ item.name → lookupA st2.decls n = lookupA st.decls n) ∧
      (∀ n, (lookupA st.decls n).isSome → (lookupA st2.decls n).isSome)) := by
  obtain ⟨rc, docs, name, node⟩ := item
  constructor
  · intro h
    simp only [parse_ty] at h
    cases node with
    | structKind variants generics =>
      simp only [Option.some.injEq, Prod.mk.injEq] at h
      obtain ⟨_, hst, _⟩ := h
      subst hst
      exact ⟨fun n _ => rfl, fun n hv => hv⟩
    | otherKind =>
      simp only [Option.some.injEq, Prod.mk.injEq] at h
      obtain ⟨_, hst, _⟩ := h
      subst hst
      exact ⟨fun n _ => rfl, fun n hv => hv⟩
    | tyAlias ty g =>
      cases g with
      | true =>
        simp only [if_true, Option.some.injEq, Prod.mk.injEq] at h
        obtain ⟨_, hst, _⟩ := h
        subst hst
        exact ⟨fun n _ => rfl, fun n hv => hv⟩
      | false =>
        simp only [Bool.false_eq_true, if_false] at h
        cases hc : rust_to_c ty name with
        | error e =>
          simp only [hc, Option.some.injEq, Prod.mk.injEq] at h
          obtain ⟨_, hst, _⟩ := h
          subst hst
          exact ⟨fun n _ => rfl, fun n hv => hv⟩
        | ok nt =>
          simp only [hc] at h
          cases happ : append_to_header st
              (docs ++ "typedef " ++ ctype_named_to_string nt ++ ";\n\n")
              module outputs with
          | none => simp [happ] at h
          | some o2 =>
            simp only [happ] at h
            cases hh : header_name module st.lib_name with
            | none => simp [hh] at h
            | some header =>
              simp only [hh, Option.some.injEq, Prod.mk.injEq] at h
              obtain ⟨_, hst, _⟩ := h
              subst hst
              exact ⟨fun n hn => lookupA_insertA_ne _ _ _ _ hn,
                fun n hv => lookupA_insertA_isSome _ _ _ _ hv⟩
  · intro h
    simp only [parse_struct] at h
    cases rc with
    | false =>
      simp only [Bool.not_false, if_true, Option.some.injEq, Prod.mk.injEq] at h
      obtain ⟨_, hst, _⟩ := h
      subst hst
      exact ⟨fun n _ => rfl, fun n hv => hv⟩
    | true =>
      cases node with
      | tyAlias ty g =>
        simp only [Bool.not_true, Bool.false_eq_true, if_false, Option.some.injEq,
          Prod.mk.injEq] at h
        obtain ⟨_, hst, _⟩ := h
        subst hst
        exact ⟨fun n _ => rfl, fun n hv => hv⟩
      | otherKind =>
        simp only [Bool.not_true, Bool.false_eq_true, if_false, Option.some.injEq,
          Prod.mk.injEq] at h
        obtain ⟨_, hst, _⟩ := h
        subst hst
        exact ⟨fun n _ => rfl, fun n hv => hv⟩
      | structKind variants generics =>
        cases generics with
        | true =>
          simp only [Bool.not_true, Bool.false_eq_true, if_false, if_true,
            Option.some.injEq, Prod.mk.injEq] at h
          obtain ⟨_, hst, _⟩ := h
          subst hst
          exact ⟨fun n _ => rfl, fun n hv => hv⟩
        | false =>
          simp only [Bool.not_true, Bool.false_eq_true, if_false] at h
          cases variants with
          | unitStruct =>
            simp only [Option.some.injEq, Prod.mk.injEq] at h
            obtain ⟨_, hst, _⟩ := h
            subst hst
            exact ⟨fun n _ => rfl, fun n hv => hv⟩
          | tuple nf =>
            match nf with
            | 0 =>
              simp only [Option.some.injEq, Prod.mk.injEq] at h
              obtain ⟨_, hst, _⟩ := h
              subst hst
              exact ⟨fun n _ => rfl, fun n hv => hv⟩
            | 1 =>
              cases happ : append_to_header st
                  (docs ++ "typedef struct " ++ name ++ " " ++ name ++ ";\n\n")
                  module outputs with
              | none => simp [happ] at h
              | some o2 =>
                simp only [happ] at h
                cases hh : header_name module st.lib_name with
                | none => simp [hh] at h
                | some header =>
                  simp only [hh, Option.some.injEq, Prod.mk.injEq] at h
                  obtain ⟨_, hst, _⟩ := h
                  subst hst
                  exact ⟨fun n hn => lookupA_insertA_ne _ _ _ _ hn,
                    fun n hv => lookupA_insertA_isSome _ _ _ _ hv⟩
            | (k + 2) =>
              simp only [Option.some.injEq, Prod.mk.injEq] at h
              obtain ⟨_, hst, _⟩ := h
              subst hst
              exact ⟨fun n _ => rfl, fun n hv => hv⟩
          | structFields fields =>
            cases hpf : parse_fields st module fields
                (docs ++ "typedef struct " ++ name ++ " \x7b\n") with
            | none => simp [hpf] at h
            | some pr =>
              obtain ⟨r2, stx⟩ := pr
              cases r2 with
              | error e2 =>
                simp only [hpf, Option.some.injEq, Prod.mk.injEq] at h
                obtain ⟨_, hst, _⟩ := h
                subst hst
                obtain ⟨hd, _, _⟩ := parse_fields_state module fields st _ _ _ hpf
                rw [hd]
                exact ⟨fun n _ => rfl, fun n hv => hv⟩
              | ok buf2 =>
                simp only [hpf] at h
                cases happ : append_to_header stx
                    (buf2 ++ "\x7d" ++ " " ++ name ++ ";\n\n") module outputs with
                | none => simp [happ] at h
                | some o2 =>
                  simp only [happ] at h
                  cases hh : header_name module stx.lib_name with
                  | none => simp [hh] at h
                  | some header =>
                    simp only [hh, Option.some.injEq, Prod.mk.injEq] at h
                    obtain ⟨_, hst, _⟩ := h
                    subst hst
                    obtain ⟨hd, _, _⟩ := parse_fields_state module fields st _ _ _ hpf
                    simp only [hd]
                    exact ⟨fun n hn => lookupA_insertA_ne _ _ _ _ hn,
                      fun n hv => lookupA_insertA_isSome _ _ _ _ hv⟩

/-- Witness for C6 (amended), at the first run of the counterexample. -/
theorem registry_never_removed_witness :
    (∀ n, n ≠ "A" →
      lookupA (LangC.mk "backend" [("A", "backend/x.h")] []).decls n =
        lookupA (LangC.mk "backend" [] []).decls n) ∧
    (∀ n, (lookupA (LangC.mk "backend" [] []).decls n).isSome →
      (lookupA (LangC.mk "backend" [("A", "backend/x.h")] []).decls n).isSome) :=
  (registry_never_removed (LangC.mk "backend" [] [])
      (Item.mk false "" "A" (ItemKind.tyAlias (RTy.path ["u8"]) false)) ["ffi", "x"]
      [] (Except.ok ()) (LangC.mk "backend" [("A", "backend/x.h")] [])
      [("backend/x.h", "typedef uint8_t A;\n\n")]).1
    (by simp only [parse_ty, rust_to_c, anon_rust_to_c, path_to_c, rust_ty_to_c,
          libc_ty_to_c, append_to_header, header_name, append_output, insertA,
          ctype_named_to_string, ctype_to_string, CType.isFnDecl]
        rfl)


end SafeBindgen
